import Mathlib

/-!
Shallow embedding of the inventory reconciliation and caching layer of the
GrubbsautoscraperCash repository (`db.py` and the attempt-bookkeeping part of
`fb_marketplace_sync.py`).

The SQLite `vehicles` table is modelled as a `List Vehicle`; an SQL `UPDATE`
touching the rows matching a key becomes a `List.map` guarded by a key test,
an `INSERT` becomes an append, so row positions are stable the way SQLite
rowids are.  ISO-8601 timestamp strings (which the code compares only by
age subtraction) are modelled as `Nat` seconds; the JSON encode/decode round
trip on cache payloads is modelled as the identity, so payloads are stored
in decoded form.
-/

set_option autoImplicit false

namespace Grubbs

/-- The producer-side record: the `Vehicle` dataclass of
`fb_marketplace_sync.py`, which is what `asdict` hands to
`db.upsert_vehicles`.  `price` is `Optional[str]` there; `year` and
`mileage` are numeric strings. -/
structure VehicleRecord where
  vin            : String
  title          : String
  link           : String
  stock_number   : String
  mileage        : String
  exterior_color : String
  image_url      : String
  year           : String := ""
  make           : String := ""
  model          : String := ""
  trim           : String := ""
  description    : String := ""
  price          : Option String := none
  condition      : String := "used"
  body_style     : String := ""
  deriving Repr, DecidableEq

/-- One row of the `vehicles` table of `db.py` (columns from `init_db` plus
the `_migrate` additions).  Nullable columns are `Option`; after `_migrate`,
fresh inserts give `price_scrape_attempts` and `pack` the column default `0`. -/
structure Vehicle where
  vin                   : String
  title                 : String
  stock_number          : String
  year                  : Option Int
  make                  : String
  model                 : String
  trim                  : String
  condition             : String
  body_style            : String
  mileage               : Int
  exterior_color        : String
  price_dollars         : Option Int
  image_url             : String
  link                  : String
  first_seen            : Nat
  last_seen             : Nat
  is_active             : Bool
  price_override        : Option Int
  addendum_override     : Option Int
  market_value          : Option Int
  notes                 : String
  price_scrape_attempts : Option Int
  cost                  : Option Int
  pack                  : Option Int
  deriving Repr, DecidableEq

/-- Value of a run of decimal digits, as `int()` reads it. -/
def digitsVal (ds : List Char) : Nat :=
  ds.foldl (fun acc c => acc * 10 + (c.toNat - 48)) 0

/-- `int(s)` on an all-digit string, `None` when empty or non-numeric
(the `except (TypeError, ValueError)` path of `upsert_vehicles`). -/
def parseInt? (s : String) : Option Int :=
  if s = "" then none
  else if s.data.all Char.isDigit then some (digitsVal s.data : Int)
  else none

/-- `int(year) if year else None`, with parse failures mapped to `None`. -/
def parseYear (s : String) : Option Int := parseInt? s

/-- `int(v.get("mileage") or 0)` — empty string counts as 0. -/
def parseMileage (s : String) : Int := (parseInt? s).getD 0

/-- The price extraction in `upsert_vehicles`:
`if v.get("price"): m = re.match(r"(\d+)", str(v["price"]))`, i.e. a truthy
price string is scanned for leading digits. -/
def parse_price (p : Option String) : Option Int :=
  match p with
  | none => none
  | some s =>
    if s = "" then none
    else
      let ds := s.data.takeWhile Char.isDigit
      if ds.isEmpty then none else some (digitsVal ds : Int)

/-- `UPDATE vehicles SET is_active = 0` on one row. -/
def deactivate (v : Vehicle) : Vehicle := { v with is_active := false }

/-- The `ON CONFLICT(vin) DO UPDATE SET` branch of `upsert_vehicles`: every
producer column and `last_seen`/`is_active` are overwritten from the record;
`first_seen`, the override columns, `notes`, `price_scrape_attempts`, `cost`
and `pack` are not in the `SET` list and keep their values. -/
def applyUpdate (now : Nat) (r : VehicleRecord) (v : Vehicle) : Vehicle :=
  { v with
    title          := r.title
    stock_number   := r.stock_number
    year           := parseYear r.year
    make           := r.make
    model          := r.model
    trim           := r.trim
    condition      := r.condition
    body_style     := r.body_style
    mileage        := parseMileage r.mileage
    exterior_color := r.exterior_color
    price_dollars  := parse_price r.price
    image_url      := r.image_url
    link           := r.link
    last_seen      := now
    is_active      := true }

/-- A row as first inserted for a key: table defaults everywhere, ready to
receive the record's columns via `applyUpdate`. -/
def insertBase (now : Nat) (x : String) : Vehicle :=
  { vin := x, title := "", stock_number := "", year := none, make := ""
    model := "", trim := "", condition := "used", body_style := ""
    mileage := 0, exterior_color := "", price_dollars := none
    image_url := "", link := "", first_seen := now, last_seen := now
    is_active := true, price_override := none, addendum_override := none
    market_value := none, notes := "", price_scrape_attempts := some 0
    cost := none, pack := some 0 }

/-- The `INSERT` branch of `upsert_vehicles` for a key not yet in the table:
`first_seen = last_seen = now`, `is_active = 1`, no overrides, empty notes,
attempt counter at its column default 0. -/
def newVehicle (now : Nat) (r : VehicleRecord) : Vehicle :=
  applyUpdate now r (insertBase now r.vin)

/-- Does the table hold a row with this vin? -/
def hasVin (store : List Vehicle) (x : String) : Bool :=
  store.any (fun v => v.vin == x)

/-- The body of the per-record loop of `upsert_vehicles`: skip an empty vin,
else `INSERT ... ON CONFLICT(vin) DO UPDATE`. -/
def upsertOne (now : Nat) (store : List Vehicle) (r : VehicleRecord) : List Vehicle :=
  if r.vin = "" then store
  else if hasVin store r.vin then
    store.map (fun v => if v.vin = r.vin then applyUpdate now r v else v)
  else
    store ++ [newVehicle now r]

/-- `db.upsert_vehicles`: first `UPDATE vehicles SET is_active = 0 WHERE
is_active = 1`, then the per-record upsert loop, all at one timestamp `now`. -/
def upsert_vehicles (now : Nat) (batch : List VehicleRecord) (store : List Vehicle) :
    List Vehicle :=
  batch.foldl (upsertOne now) (store.map deactivate)

/-- Effective price as computed by the dashboard (`_enrich_vehicle`):
`price_override` when not `None`, else `price_dollars`. -/
def effective_price (v : Vehicle) : Option Int :=
  match v.price_override with
  | some p => some p
  | none   => v.price_dollars

/-! ### User-editable field updates (`db.update_vehicle_fields`) -/

/-- A value passed in the `fields` dict: integer-or-NULL for the numeric
columns, a string for `notes`. -/
inductive FieldVal where
  | int (i : Option Int)
  | str (s : String)
  deriving Repr, DecidableEq

/-- The `allowed` set of `update_vehicle_fields`. -/
def allowedFields : List String :=
  ["price_override", "addendum_override", "market_value", "notes", "cost", "pack"]

/-- Assignment of one `SET k=?` item to a row. -/
def setField (v : Vehicle) (kv : String × FieldVal) : Vehicle :=
  match kv with
  | ("price_override", .int i)    => { v with price_override := i }
  | ("addendum_override", .int i) => { v with addendum_override := i }
  | ("market_value", .int i)      => { v with market_value := i }
  | ("cost", .int i)              => { v with cost := i }
  | ("pack", .int i)              => { v with pack := i }
  | ("notes", .str s)             => { v with notes := s }
  | _ => v

/-- `db.update_vehicle_fields`: filter the dict to the allowed keys, return
`False` untouched when nothing remains, else `UPDATE ... WHERE vin=?` and
report `rowcount > 0`. -/
def update_vehicle_fields (vin : String) (fields : List (String × FieldVal))
    (store : List Vehicle) : Bool × List Vehicle :=
  if (fields.filter (fun kv => allowedFields.contains kv.1)).isEmpty then (false, store)
  else
    (hasVin store vin,
     store.map (fun v =>
       if v.vin = vin then
         (fields.filter (fun kv => allowedFields.contains kv.1)).foldl setField v
       else v))

/-! ### Scrape-attempt tracking (`db.get_scrape_attempts`,
`db.update_scrape_attempts`, and the bookkeeping loop in
`fb_marketplace_sync.main`) -/

/-- `db.get_scrape_attempts`: `SELECT vin, COALESCE(price_scrape_attempts,0)
FROM vehicles WHERE vin IN (...)`, as an association list.  Only vins that
have a row appear in the result. -/
def get_scrape_attempts (vins : List String) (store : List Vehicle) :
    List (String × Int) :=
  if vins.isEmpty then []
  else
    (store.filter (fun v => vins.contains v.vin)).map
      (fun v => (v.vin, (v.price_scrape_attempts).getD 0))

/-- Dict lookup on the association list returned by `get_scrape_attempts`. -/
def lookupAttempt (m : List (String × Int)) (x : String) : Option Int :=
  (m.find? (fun p => p.1 == x)).map (fun p => p.2)

/-- `db.update_scrape_attempts`: for each `(vin, count)` in the dict,
`UPDATE vehicles SET price_scrape_attempts = max(0, count) WHERE vin = ?`. -/
def update_scrape_attempts (updates : List (String × Int)) (store : List Vehicle) :
    List Vehicle :=
  updates.foldl
    (fun s u =>
      s.map (fun v =>
        if v.vin = u.1 then { v with price_scrape_attempts := some (max 0 u.2) } else v))
    store

/-- `MAX_SCRAPE_ATTEMPTS` (default 3). -/
def MAX_SCRAPE_ATTEMPTS : Int := 3

/-- Truthiness of the dataclass's `price` field (`if v.price:`). -/
def hasPrice (r : VehicleRecord) : Bool :=
  match r.price with
  | none => false
  | some s => s ≠ ""

/-- `_skip_vins` of `fb_marketplace_sync.main`: vins whose stored attempt
count has reached the ceiling. -/
def skipVins (store : List Vehicle) (vehicles : List VehicleRecord) : List String :=
  ((get_scrape_attempts (vehicles.map (fun v => v.vin)) store).filter
    (fun p => MAX_SCRAPE_ATTEMPTS ≤ p.2)).map (fun p => p.1)

/-- The `_attempt_updates` dict of `fb_marketplace_sync.main`: every vehicle
not in `_skip_vins` was attempted; a truthy price resets its counter to 0,
otherwise the previous stored count (defaulting to 0) is incremented. -/
def attemptUpdates (store : List Vehicle) (vehicles : List VehicleRecord) :
    List (String × Int) :=
  (vehicles.filter (fun v => ¬ (skipVins store vehicles).contains v.vin)).map
    (fun v =>
      (v.vin,
       if hasPrice v then 0
       else (lookupAttempt (get_scrape_attempts (vehicles.map (fun v => v.vin)) store)
          v.vin).getD 0 + 1))

/-- Step 5 of `fb_marketplace_sync.main` as it affects the store: the batch
is upserted, then the attempt counters of the attempted vehicles are
written back. -/
def runSync (now : Nat) (vehicles : List VehicleRecord) (store : List Vehicle) :
    List Vehicle :=
  update_scrape_attempts (attemptUpdates store vehicles)
    (upsert_vehicles now vehicles store)

/-! ### MarketCheck comparable-listings cache (`db.get_comps_cache`,
`db.set_comps_cache`) -/

/-- One row of `comps_cache`: key, decoded payload, `fetched_at`. -/
structure CompsEntry where
  cache_key  : String
  data       : List String
  fetched_at : Nat
  deriving Repr, DecidableEq

/-- `_COMPS_TTL_HOURS = 24`, in seconds (`age_h > 24` on a seconds/3600
quotient is exactly an age above 86400 seconds). -/
def COMPS_TTL_SECONDS : Nat := 24 * 3600

/-- `db.get_comps_cache`: miss when no row; a row older than the TTL is a
miss even though it stays stored; otherwise the payload. -/
def get_comps_cache (now : Nat) (key : String) (cache : List CompsEntry) :
    Option (List String) :=
  match cache.find? (fun e => e.cache_key == key) with
  | none => none
  | some e => if COMPS_TTL_SECONDS < now - e.fetched_at then none else some e.data

/-- `db.set_comps_cache`: `INSERT ... ON CONFLICT(cache_key) DO UPDATE` with
a fresh timestamp. -/
def set_comps_cache (now : Nat) (key : String) (listings : List String)
    (cache : List CompsEntry) : List CompsEntry :=
  if cache.any (fun e => e.cache_key == key) then
    cache.map (fun e =>
      if e.cache_key = key then { cache_key := key, data := listings, fetched_at := now }
      else e)
  else
    cache ++ [{ cache_key := key, data := listings, fetched_at := now }]

/-! ### VIN decode / window-sticker cache (`db.get_vin_cache`,
`db.set_vin_cache`) -/

/-- One row of `vin_cache` (decoded `specs_json`). -/
structure VinEntry where
  vin         : String
  specs       : List String
  sticker_url : String
  fetched_at  : Nat
  deriving Repr, DecidableEq

/-- `db.get_vin_cache`. -/
def get_vin_cache (vin : String) (cache : List VinEntry) :
    Option (List String × String) :=
  (cache.find? (fun e => e.vin == vin)).map (fun e => (e.specs, e.sticker_url))

/-- `db.set_vin_cache`: when a row exists, each provided field replaces the
stored one and an omitted field keeps it; when no row exists, a new row is
inserted with `specs or []` and `sticker_url or ""`. -/
def set_vin_cache (now : Nat) (vin : String) (specs : Option (List String))
    (sticker_url : Option String) (cache : List VinEntry) : List VinEntry :=
  if cache.any (fun e => e.vin == vin) then
    cache.map (fun e =>
      if e.vin = vin then
        { vin := vin
          specs := specs.getD e.specs
          sticker_url := sticker_url.getD e.sticker_url
          fetched_at := now }
      else e)
  else
    cache ++ [{ vin := vin, specs := specs.getD [], sticker_url := sticker_url.getD ""
                fetched_at := now }]

/-! ### Proof-side definitions: the last matching record of a batch, and the
per-row effect of a reconciliation pass -/

/-- The last record of `batch` carrying the (non-empty) vin `x` — i.e. the
record whose values the row with vin `x` holds once the whole per-record loop
of `upsert_vehicles` has run. -/
def lastOcc : List VehicleRecord → String → Option VehicleRecord
  | [], _ => none
  | r :: bs, x =>
    match lastOcc bs x with
    | some r' => some r'
    | none => if r.vin = x ∧ x ≠ "" then some r else none

/-- Effect of the per-record loop on one pre-existing row: rows matched by
some batch record end up updated from the last such record, rows matched by
none pass through. -/
def fRow (now : Nat) (batch : List VehicleRecord) (v : Vehicle) : Vehicle :=
  match lastOcc batch v.vin with
  | some r => applyUpdate now r v
  | none => v

/-! ### Concrete fixtures used by the witnesses -/

/-- A producer record carrying vin `A` with a scraped price of 19500. -/
def recA : VehicleRecord :=
  { vin := "A", title := "2020 Ford", link := "http://x/a", stock_number := "S1"
    mileage := "41000", exterior_color := "blue", image_url := "http://x/a.jpg"
    year := "2020", make := "Ford", model := "F-150", trim := "XL"
    price := some "19500 USD" }

/-- The same vehicle as `recA` seen again with a different scraped price. -/
def recA' : VehicleRecord :=
  { recA with price := some "19000 USD" }

/-- A producer record carrying vin `B` and no price. -/
def recB : VehicleRecord :=
  { vin := "B", title := "2019 Ram", link := "http://x/b", stock_number := "S2"
    mileage := "52000", exterior_color := "red", image_url := "http://x/b.jpg"
    year := "2019", make := "Ram", model := "1500", trim := "" }

/-- A stored row for vin `A` with a user price override of 18000. -/
def rowA : Vehicle :=
  { vin := "A", title := "2020 Ford", stock_number := "S1", year := some 2020
    make := "Ford", model := "F-150", trim := "XL", condition := "used"
    body_style := "", mileage := 41000, exterior_color := "blue"
    price_dollars := some 20000, image_url := "http://x/a.jpg", link := "http://x/a"
    first_seen := 100, last_seen := 100, is_active := true
    price_override := some 18000, addendum_override := none
    market_value := some 21000, notes := "hold", price_scrape_attempts := some 0
    cost := none, pack := some 0 }

/-- A stored row for vin `B` with no overrides. -/
def rowB : Vehicle :=
  { vin := "B", title := "2019 Ram", stock_number := "S2", year := some 2019
    make := "Ram", model := "1500", trim := "", condition := "used"
    body_style := "", mileage := 52000, exterior_color := "red"
    price_dollars := none, image_url := "http://x/b.jpg", link := "http://x/b"
    first_seen := 100, last_seen := 100, is_active := true
    price_override := none, addendum_override := none
    market_value := none, notes := "", price_scrape_attempts := some 2
    cost := none, pack := some 0 }

/-- The row for vin `B` before any failed scrape attempts. -/
def rowB0 : Vehicle :=
  { rowB with price_scrape_attempts := some 0 }

/-- The stored attempt counter of the row holding vin `x`, read the way
`get_scrape_attempts` reads it (`COALESCE(price_scrape_attempts, 0)`);
`none` when no row holds the vin. -/
def storedAttempts (store : List Vehicle) (x : String) : Option Int :=
  (store.find? (fun v => v.vin == x)).map (fun v => (v.price_scrape_attempts).getD 0)

/-- The effect of one `update_scrape_attempts` dict on a single row: each
`(vin, count)` entry in turn sets the counter to `max 0 count` when the vin
matches. -/
def applyAttemptUpdates (updates : List (String × Int)) (w : Vehicle) : Vehicle :=
  updates.foldl
    (fun w u =>
      if w.vin = u.1 then { w with price_scrape_attempts := some (max 0 u.2) } else w)
    w

/-- The store for vin `B` after three consecutive price-discovery runs in
which its price never resolves (`recB` carries no price). -/
def threeFailStore : List Vehicle :=
  runSync 3 [recB] (runSync 2 [recB] (runSync 1 [recB] [rowB0]))

/-! ### Field-level lemmas about the upsert row transformations -/

@[simp] theorem applyUpdate_vin (now : Nat) (r : VehicleRecord) (v : Vehicle) :
    (applyUpdate now r v).vin = v.vin := rfl

@[simp] theorem applyUpdate_first_seen (now : Nat) (r : VehicleRecord) (v : Vehicle) :
    (applyUpdate now r v).first_seen = v.first_seen := rfl

@[simp] theorem applyUpdate_last_seen (now : Nat) (r : VehicleRecord) (v : Vehicle) :
    (applyUpdate now r v).last_seen = now := rfl

@[simp] theorem applyUpdate_is_active (now : Nat) (r : VehicleRecord) (v : Vehicle) :
    (applyUpdate now r v).is_active = true := rfl

@[simp] theorem applyUpdate_price_override (now : Nat) (r : VehicleRecord) (v : Vehicle) :
    (applyUpdate now r v).price_override = v.price_override := rfl

@[simp] theorem applyUpdate_addendum_override (now : Nat) (r : VehicleRecord) (v : Vehicle) :
    (applyUpdate now r v).addendum_override = v.addendum_override := rfl

@[simp] theorem applyUpdate_market_value (now : Nat) (r : VehicleRecord) (v : Vehicle) :
    (applyUpdate now r v).market_value = v.market_value := rfl

@[simp] theorem applyUpdate_notes (now : Nat) (r : VehicleRecord) (v : Vehicle) :
    (applyUpdate now r v).notes = v.notes := rfl

@[simp] theorem applyUpdate_attempts (now : Nat) (r : VehicleRecord) (v : Vehicle) :
    (applyUpdate now r v).price_scrape_attempts = v.price_scrape_attempts := rfl

@[simp] theorem applyUpdate_price_dollars (now : Nat) (r : VehicleRecord) (v : Vehicle) :
    (applyUpdate now r v).price_dollars = parse_price r.price := rfl

@[simp] theorem deactivate_vin (v : Vehicle) : (deactivate v).vin = v.vin := rfl

@[simp] theorem deactivate_is_active (v : Vehicle) : (deactivate v).is_active = false := rfl

@[simp] theorem deactivate_first_seen (v : Vehicle) :
    (deactivate v).first_seen = v.first_seen := rfl

@[simp] theorem deactivate_price_override (v : Vehicle) :
    (deactivate v).price_override = v.price_override := rfl

@[simp] theorem deactivate_addendum_override (v : Vehicle) :
    (deactivate v).addendum_override = v.addendum_override := rfl

@[simp] theorem deactivate_market_value (v : Vehicle) :
    (deactivate v).market_value = v.market_value := rfl

@[simp] theorem deactivate_notes (v : Vehicle) : (deactivate v).notes = v.notes := rfl

@[simp] theorem deactivate_attempts (v : Vehicle) :
    (deactivate v).price_scrape_attempts = v.price_scrape_attempts := rfl

@[simp] theorem newVehicle_vin (now : Nat) (r : VehicleRecord) :
    (newVehicle now r).vin = r.vin := rfl

@[simp] theorem newVehicle_first_seen (now : Nat) (r : VehicleRecord) :
    (newVehicle now r).first_seen = now := rfl

@[simp] theorem newVehicle_is_active (now : Nat) (r : VehicleRecord) :
    (newVehicle now r).is_active = true := rfl

theorem applyUpdate_applyUpdate (now now' : Nat) (r r' : VehicleRecord) (v : Vehicle) :
    applyUpdate now r (applyUpdate now' r' v) = applyUpdate now r v := rfl

theorem applyUpdate_deactivate (now : Nat) (r : VehicleRecord) (v : Vehicle) :
    applyUpdate now r (deactivate v) = applyUpdate now r v := rfl

theorem deactivate_eq_self {v : Vehicle} (h : v.is_active = false) : deactivate v = v := by
  unfold deactivate
  rw [← h]

theorem applyUpdate_newVehicle (now : Nat) (r r' : VehicleRecord) (h : r'.vin = r.vin) :
    applyUpdate now r (newVehicle now r') = newVehicle now r := by
  unfold newVehicle
  rw [applyUpdate_applyUpdate]
  unfold insertBase
  rw [h]

/-! ### The last matching record of a batch, and the per-row effect of a
reconciliation pass -/

@[simp] theorem lastOcc_nil (x : String) : lastOcc [] x = none := rfl

theorem lastOcc_cons_ne {r : VehicleRecord} {x : String} (bs : List VehicleRecord)
    (h : ¬(r.vin = x ∧ x ≠ "")) : lastOcc (r :: bs) x = lastOcc bs x := by
  cases hb : lastOcc bs x <;> simp [lastOcc, hb, h]

theorem lastOcc_cons_of {r : VehicleRecord} {x : String} (bs : List VehicleRecord)
    (h : r.vin = x ∧ x ≠ "") : lastOcc (r :: bs) x = some ((lastOcc bs x).getD r) := by
  cases hb : lastOcc bs x <;> simp [lastOcc, hb, h]

@[simp] theorem fRow_nil (now : Nat) (v : Vehicle) : fRow now [] v = v := rfl

theorem fRow_vin (now : Nat) (bs : List VehicleRecord) (v : Vehicle) :
    (fRow now bs v).vin = v.vin := by
  unfold fRow
  cases lastOcc bs v.vin <;> simp

theorem fRow_cons_ne {r : VehicleRecord} {v : Vehicle} (now : Nat) (bs : List VehicleRecord)
    (h : ¬(r.vin = v.vin ∧ v.vin ≠ "")) : fRow now (r :: bs) v = fRow now bs v := by
  unfold fRow
  rw [lastOcc_cons_ne bs h]

theorem fRow_cons_eq {r : VehicleRecord} {v : Vehicle} (now : Nat) (bs : List VehicleRecord)
    (h : r.vin = v.vin ∧ v.vin ≠ "") :
    fRow now (r :: bs) v = applyUpdate now ((lastOcc bs v.vin).getD r) v := by
  unfold fRow
  rw [lastOcc_cons_of bs h]

theorem fRow_applyUpdate {r : VehicleRecord} {v : Vehicle} (now : Nat)
    (bs : List VehicleRecord) (hv : v.vin = r.vin) (hne : r.vin ≠ "") :
    fRow now bs (applyUpdate now r v) = fRow now (r :: bs) v := by
  rw [fRow_cons_eq now bs ⟨hv.symm, hv ▸ hne⟩]
  unfold fRow
  rw [applyUpdate_vin, hv]
  cases hb : lastOcc bs r.vin <;>
    simp [hb, applyUpdate_applyUpdate]

/-! ### The three branches of `upsertOne`, and vin-presence lemmas -/

theorem upsertOne_empty (now : Nat) {r : VehicleRecord} (t : List Vehicle)
    (h : r.vin = "") : upsertOne now t r = t := by
  simp [upsertOne, h]

theorem upsertOne_update (now : Nat) {r : VehicleRecord} {t : List Vehicle}
    (h : r.vin ≠ "") (hh : hasVin t r.vin = true) :
    upsertOne now t r =
      t.map (fun v => if v.vin = r.vin then applyUpdate now r v else v) := by
  simp [upsertOne, h, hh]

theorem upsertOne_insert (now : Nat) {r : VehicleRecord} {t : List Vehicle}
    (h : r.vin ≠ "") (hh : hasVin t r.vin = false) :
    upsertOne now t r = t ++ [newVehicle now r] := by
  simp [upsertOne, h, hh]

theorem hasVin_iff {t : List Vehicle} {x : String} :
    hasVin t x = true ↔ ∃ v ∈ t, v.vin = x := by
  simp [hasVin, List.any_eq_true]

theorem hasVin_eq_false {t : List Vehicle} {x : String} :
    hasVin t x = false ↔ ∀ v ∈ t, v.vin ≠ x := by
  rw [← Bool.not_eq_true, hasVin_iff]
  simp

theorem hasVin_map {g : Vehicle → Vehicle} (hg : ∀ v, (g v).vin = v.vin)
    (t : List Vehicle) (x : String) : hasVin (t.map g) x = hasVin t x := by
  induction t with
  | nil => rfl
  | cons w t ih =>
    simp only [List.map_cons, hasVin, List.any_cons] at *
    rw [hg w, ih]

theorem hasVin_append (t₁ t₂ : List Vehicle) (x : String) :
    hasVin (t₁ ++ t₂) x = (hasVin t₁ x || hasVin t₂ x) := by
  simp [hasVin, List.any_append]

theorem hasVin_upsertOne (now : Nat) (r : VehicleRecord) {t : List Vehicle} {x : String}
    (h : hasVin t x = true) : hasVin (upsertOne now t r) x = true := by
  by_cases hr : r.vin = ""
  · rw [upsertOne_empty now t hr]; exact h
  · by_cases hh : hasVin t r.vin
    · rw [upsertOne_update now hr hh, hasVin_map (fun v => by split <;> simp)]
      exact h
    · rw [upsertOne_insert now hr (Bool.eq_false_iff.mpr hh), hasVin_append, h,
        Bool.true_or]

theorem hasVin_foldl (now : Nat) :
    ∀ (bs : List VehicleRecord) (t : List Vehicle) (x : String),
      hasVin t x = true → hasVin (List.foldl (upsertOne now) t bs) x = true := by
  intro bs
  induction bs with
  | nil => intro t x h; exact h
  | cons r bs ih =>
    intro t x h
    rw [List.foldl_cons]
    exact ih _ x (hasVin_upsertOne now r h)

theorem hasVin_foldl_batch (now : Nat) :
    ∀ (bs : List VehicleRecord) (t : List Vehicle) (r : VehicleRecord),
      r ∈ bs → r.vin ≠ "" →
      hasVin (List.foldl (upsertOne now) t bs) r.vin = true := by
  intro bs
  induction bs with
  | nil => intro t r hr; cases hr
  | cons r' bs ih =>
    intro t r hr hne
    rw [List.foldl_cons]
    rcases List.mem_cons.mp hr with rfl | hmem
    · apply hasVin_foldl now bs
      by_cases hh : hasVin t r.vin
      · rw [upsertOne_update now hne hh, hasVin_map (fun v => by split <;> simp)]
        exact hh
      · rw [upsertOne_insert now hne (Bool.eq_false_iff.mpr hh), hasVin_append]
        simp [hasVin]
    · exact ih _ r hmem hne

/-! ### Positional characterization: a pre-existing row at index `i` is
transformed exactly by `fRow`, and in particular is never deleted. -/

theorem foldl_upsertOne_getElem? (now : Nat) :
    ∀ (bs : List VehicleRecord) (t : List Vehicle) (i : Nat) (v : Vehicle),
      t[i]? = some v →
      (List.foldl (upsertOne now) t bs)[i]? = some (fRow now bs v) := by
  intro bs
  induction bs with
  | nil => intro t i v h; simpa using h
  | cons r bs ih =>
    intro t i v h
    rw [List.foldl_cons]
    by_cases hr : r.vin = ""
    · rw [upsertOne_empty now t hr, ih t i v h]
      have : fRow now (r :: bs) v = fRow now bs v := by
        apply fRow_cons_ne
        rintro ⟨h1, h2⟩
        exact h2 (h1 ▸ hr)
      rw [this]
    · by_cases hh : hasVin t r.vin
      · rw [upsertOne_update now hr hh]
        set g := fun v => if v.vin = r.vin then applyUpdate now r v else v with hg
        have ht' : (t.map g)[i]? = some (g v) := by
          rw [List.getElem?_map, h, Option.map_some']
        rw [ih (t.map g) i (g v) ht']
        by_cases hv : v.vin = r.vin
        · have : g v = applyUpdate now r v := by rw [hg]; simp [hv]
          rw [this, fRow_applyUpdate now bs hv hr]
        · have : g v = v := by rw [hg]; simp [hv]
          rw [this, fRow_cons_ne now bs (by rintro ⟨h1, _⟩; exact hv h1.symm)]
      · rw [upsertOne_insert now hr (Bool.eq_false_iff.mpr hh)]
        obtain ⟨hlt, -⟩ := List.getElem?_eq_some_iff.mp h
        have ht' : (t ++ [newVehicle now r])[i]? = some v := by
          rw [List.getElem?_append_left hlt]; exact h
        rw [ih _ i v ht']
        have hvin : v.vin ≠ r.vin :=
          hasVin_eq_false.mp (Bool.eq_false_iff.mpr hh) v (List.getElem?_mem h)
        rw [fRow_cons_ne now bs (by rintro ⟨h1, _⟩; exact hvin h1.symm)]

/-- A row of the store at position `i` before `upsert_vehicles` is still at
position `i` afterwards, transformed by deactivation followed by the last
matching batch record (if any). -/
theorem upsert_vehicles_getElem? (now : Nat) (batch : List VehicleRecord)
    {store : List Vehicle} {i : Nat} {v : Vehicle} (h : store[i]? = some v) :
    (upsert_vehicles now batch store)[i]? = some (fRow now batch (deactivate v)) := by
  unfold upsert_vehicles
  apply foldl_upsertOne_getElem?
  rw [List.getElem?_map, h, Option.map_some']

/-! ### Activity after a pass -/

theorem foldl_upsertOne_active (now : Nat) :
    ∀ (bs : List VehicleRecord) (Q : String → Prop) (t : List Vehicle),
      (∀ w ∈ t, w.is_active = true ↔ Q w.vin) →
      ∀ v ∈ List.foldl (upsertOne now) t bs,
        (v.is_active = true ↔
          (Q v.vin ∨ ∃ r ∈ bs, r.vin = v.vin ∧ r.vin ≠ "")) := by
  intro bs
  induction bs with
  | nil =>
    intro Q t ht v hv
    simpa using ht v hv
  | cons r bs ih =>
    intro Q t ht v hv
    rw [List.foldl_cons] at hv
    have step : ∀ w ∈ upsertOne now t r,
        (w.is_active = true ↔ (Q w.vin ∨ (r.vin = w.vin ∧ r.vin ≠ ""))) := by
      intro w hw
      by_cases hr : r.vin = ""
      · rw [upsertOne_empty now t hr] at hw
        simp [ht w hw, hr]
      · by_cases hh : hasVin t r.vin
        · rw [upsertOne_update now hr hh] at hw
          obtain ⟨u, hu, rfl⟩ := List.mem_map.mp hw
          by_cases huv : u.vin = r.vin
          · simp [huv, hr]
          · simp only [if_neg huv]
            rw [ht u hu]
            have : ¬ r.vin = u.vin := fun he => huv he.symm
            simp [this]
        · rw [upsertOne_insert now hr (Bool.eq_false_iff.mpr hh)] at hw
          rcases List.mem_append.mp hw with hu | hu
          · rw [ht w hu]
            have : ¬ r.vin = w.vin :=
              fun he => (hasVin_eq_false.mp (Bool.eq_false_iff.mpr hh) w hu) he.symm
            simp [this]
          · rw [List.mem_singleton.mp hu]
            simp [hr]
    have hmain := ih (fun x => Q x ∨ (r.vin = x ∧ r.vin ≠ "")) (upsertOne now t r) step v hv
    rw [hmain]
    constructor
    · rintro ((hq | ⟨h1, h2⟩) | ⟨r', hr', h1, h2⟩)
      · exact Or.inl hq
      · exact Or.inr ⟨r, List.mem_cons_self r bs, h1, h2⟩
      · exact Or.inr ⟨r', List.mem_cons_of_mem r hr', h1, h2⟩
    · rintro (hq | ⟨r', hr', h1, h2⟩)
      · exact Or.inl (Or.inl hq)
      · rcases List.mem_cons.mp hr' with rfl | hmem
        · exact Or.inl (Or.inr ⟨h1, h2⟩)
        · exact Or.inr ⟨r', hmem, h1, h2⟩

/-! ### When every batch vin is already present, a pass is exactly a map -/

theorem foldl_eq_map_of_present (now : Nat) :
    ∀ (bs : List VehicleRecord) (t : List Vehicle),
      (∀ r ∈ bs, r.vin ≠ "" → hasVin t r.vin = true) →
      List.foldl (upsertOne now) t bs = t.map (fRow now bs) := by
  intro bs
  induction bs with
  | nil =>
    intro t _
    exact (List.map_id'' (fun v => fRow_nil now v) t).symm
  | cons r bs ih =>
    intro t hp
    rw [List.foldl_cons]
    by_cases hr : r.vin = ""
    · rw [upsertOne_empty now t hr,
        ih t (fun r' hr' => hp r' (List.mem_cons_of_mem r hr'))]
      apply List.map_congr_left
      intro v _
      exact (fRow_cons_ne now bs (by rintro ⟨h1, h2⟩; exact h2 (h1 ▸ hr))).symm
    · have hh : hasVin t r.vin = true := hp r (List.mem_cons_self r bs) hr
      rw [upsertOne_update now hr hh]
      set g := fun v => if v.vin = r.vin then applyUpdate now r v else v with hg
      have hp' : ∀ r' ∈ bs, r'.vin ≠ "" → hasVin (t.map g) r'.vin = true := by
        intro r' hr' hne
        rw [hasVin_map (fun v => by by_cases hb : v.vin = r.vin <;> simp [hg, hb])]
        exact hp r' (List.mem_cons_of_mem r hr') hne
      rw [ih (t.map g) hp', List.map_map]
      apply List.map_congr_left
      intro v _
      show fRow now bs (g v) = fRow now (r :: bs) v
      by_cases hv : v.vin = r.vin
      · have : g v = applyUpdate now r v := by rw [hg]; simp [hv]
        rw [this]
        exact fRow_applyUpdate now bs hv hr
      · have : g v = v := by rw [hg]; simp [hv]
        rw [this]
        exact (fRow_cons_ne now bs (by rintro ⟨h1, _⟩; exact hv h1.symm)).symm

/-! ### Every row after a pass is a fixpoint of its last matching record -/

theorem lastOcc_cons_some {bs : List VehicleRecord} {x : String} {r' : VehicleRecord}
    (r : VehicleRecord) (h : lastOcc bs x = some r') :
    lastOcc (r :: bs) x = some r' := by
  simp [lastOcc, h]

theorem foldl_upsertOne_fixpoint (now : Nat) :
    ∀ (bs : List VehicleRecord) (t : List Vehicle) (v : Vehicle),
      v ∈ List.foldl (upsertOne now) t bs →
      (∃ r, lastOcc bs v.vin = some r ∧ applyUpdate now r v = v) ∨
        (lastOcc bs v.vin = none ∧ v ∈ t) := by
  intro bs
  induction bs with
  | nil =>
    intro t v hv
    exact Or.inr ⟨rfl, hv⟩
  | cons r bs ih =>
    intro t v hv
    rw [List.foldl_cons] at hv
    rcases ih (upsertOne now t r) v hv with ⟨r', hro, hfix⟩ | ⟨hnone, hvt⟩
    · exact Or.inl ⟨r', lastOcc_cons_some r hro, hfix⟩
    · by_cases hr : r.vin = ""
      · rw [upsertOne_empty now t hr] at hvt
        refine Or.inr ⟨?_, hvt⟩
        rw [lastOcc_cons_ne bs (by rintro ⟨h1, h2⟩; exact h2 (h1 ▸ hr))]
        exact hnone
      · by_cases hh : hasVin t r.vin
        · rw [upsertOne_update now hr hh] at hvt
          obtain ⟨u, hu, rfl⟩ := List.mem_map.mp hvt
          by_cases huv : u.vin = r.vin
          · rw [if_pos huv]
            rw [if_pos huv, applyUpdate_vin, huv] at hnone
            refine Or.inl ⟨r, ?_, applyUpdate_applyUpdate now now r r u⟩
            rw [applyUpdate_vin, huv, lastOcc_cons_of bs ⟨rfl, hr⟩, hnone]
            rfl
          · rw [if_neg huv]
            rw [if_neg huv] at hnone
            refine Or.inr ⟨?_, hu⟩
            rw [lastOcc_cons_ne bs (by rintro ⟨h1, _⟩; exact huv h1.symm)]
            exact hnone
        · rw [upsertOne_insert now hr (Bool.eq_false_iff.mpr hh)] at hvt
          rcases List.mem_append.mp hvt with hu | hu
          · refine Or.inr ⟨?_, hu⟩
            have : v.vin ≠ r.vin :=
              hasVin_eq_false.mp (Bool.eq_false_iff.mpr hh) v hu
            rw [lastOcc_cons_ne bs (by rintro ⟨h1, _⟩; exact this h1.symm)]
            exact hnone
          · rw [List.mem_singleton.mp hu]
            rw [List.mem_singleton.mp hu, newVehicle_vin] at hnone
            refine Or.inl ⟨r, ?_, applyUpdate_newVehicle now r r rfl⟩
            rw [newVehicle_vin, lastOcc_cons_of bs ⟨rfl, hr⟩, hnone]
            rfl

/-! ### What `fRow` does to the individual columns -/

theorem fRow_first_seen (now : Nat) (bs : List VehicleRecord) (v : Vehicle) :
    (fRow now bs v).first_seen = v.first_seen := by
  unfold fRow; cases lastOcc bs v.vin <;> simp

theorem fRow_price_override (now : Nat) (bs : List VehicleRecord) (v : Vehicle) :
    (fRow now bs v).price_override = v.price_override := by
  unfold fRow; cases lastOcc bs v.vin <;> simp

theorem fRow_addendum_override (now : Nat) (bs : List VehicleRecord) (v : Vehicle) :
    (fRow now bs v).addendum_override = v.addendum_override := by
  unfold fRow; cases lastOcc bs v.vin <;> simp

theorem fRow_market_value (now : Nat) (bs : List VehicleRecord) (v : Vehicle) :
    (fRow now bs v).market_value = v.market_value := by
  unfold fRow; cases lastOcc bs v.vin <;> simp

theorem fRow_notes (now : Nat) (bs : List VehicleRecord) (v : Vehicle) :
    (fRow now bs v).notes = v.notes := by
  unfold fRow; cases lastOcc bs v.vin <;> simp

theorem fRow_attempts (now : Nat) (bs : List VehicleRecord) (v : Vehicle) :
    (fRow now bs v).price_scrape_attempts = v.price_scrape_attempts := by
  unfold fRow; cases lastOcc bs v.vin <;> simp

theorem fRow_last_seen_now {now : Nat} {v : Vehicle} (bs : List VehicleRecord)
    (h : v.last_seen = now) : (fRow now bs v).last_seen = now := by
  unfold fRow; cases lastOcc bs v.vin <;> simp [h]

theorem fRow_active_of {now : Nat} {v : Vehicle} (bs : List VehicleRecord)
    (h : v.is_active = true) : (fRow now bs v).is_active = true := by
  unfold fRow; cases lastOcc bs v.vin <;> simp [h]

theorem fRow_of_some {now : Nat} {bs : List VehicleRecord} {v : Vehicle}
    {r : VehicleRecord} (h : lastOcc bs v.vin = some r) :
    fRow now bs v = applyUpdate now r v := by
  unfold fRow; rw [h]

theorem fRow_of_none {now : Nat} {bs : List VehicleRecord} {v : Vehicle}
    (h : lastOcc bs v.vin = none) : fRow now bs v = v := by
  unfold fRow; rw [h]

theorem lastOcc_some_of {x : String} (hne : x ≠ "") :
    ∀ (bs : List VehicleRecord), (∃ r ∈ bs, r.vin = x) →
      ∃ r', lastOcc bs x = some r' := by
  intro bs
  induction bs with
  | nil => rintro ⟨r, hr, -⟩; cases hr
  | cons r bs ih =>
    rintro ⟨r', hr', hvin⟩
    cases hb : lastOcc bs x with
    | some r'' => exact ⟨r'', lastOcc_cons_some r hb⟩
    | none =>
      rcases List.mem_cons.mp hr' with rfl | hmem
      · exact ⟨r', by rw [lastOcc_cons_of bs ⟨hvin, hne⟩, hb]; rfl⟩
      · obtain ⟨r'', hr''⟩ := ih ⟨r', hmem, hvin⟩
        rw [hb] at hr''
        cases hr''

/-- Any record of the batch whose vin is new to the store produces a row:
after the pass there is an index holding a row with that vin, with
`first_seen = last_seen = now` and active. -/
theorem foldl_insert_row (now : Nat) :
    ∀ (bs : List VehicleRecord) (t : List Vehicle) (r : VehicleRecord),
      r ∈ bs → r.vin ≠ "" → hasVin t r.vin = false →
      ∃ (i : Nat) (v : Vehicle),
        (List.foldl (upsertOne now) t bs)[i]? = some v ∧ v.vin = r.vin ∧
        v.first_seen = now ∧ v.last_seen = now ∧ v.is_active = true := by
  intro bs
  induction bs with
  | nil => intro t r hr; cases hr
  | cons r' bs ih =>
    intro t r hr hne hnew
    rw [List.foldl_cons]
    have insert_case : ∀ (r₀ : VehicleRecord), r₀.vin = r.vin →
        upsertOne now t r' = t ++ [newVehicle now r₀] →
        ∃ (i : Nat) (v : Vehicle),
          (List.foldl (upsertOne now) (upsertOne now t r') bs)[i]? = some v ∧
          v.vin = r.vin ∧ v.first_seen = now ∧ v.last_seen = now ∧
          v.is_active = true := by
      intro r₀ hvin heq
      refine ⟨t.length, fRow now bs (newVehicle now r₀), ?_, ?_, ?_, ?_, ?_⟩
      · apply foldl_upsertOne_getElem?
        rw [heq, List.getElem?_concat_length]
      · rw [fRow_vin, newVehicle_vin, hvin]
      · rw [fRow_first_seen, newVehicle_first_seen]
      · exact fRow_last_seen_now bs rfl
      · exact fRow_active_of bs rfl
    rcases List.mem_cons.mp hr with rfl | hmem
    · exact insert_case r rfl (upsertOne_insert now hne hnew)
    · by_cases hh' : hasVin (upsertOne now t r') r.vin
      · -- the head record must itself have inserted this vin
        by_cases hr' : r'.vin = ""
        · rw [upsertOne_empty now t hr', hnew] at hh'
          cases hh'
        · by_cases hht : hasVin t r'.vin
          · rw [upsertOne_update now hr' hht,
              hasVin_map (fun v => by by_cases hb : v.vin = r'.vin <;> simp [hb]),
              hnew] at hh'
            cases hh'
          · have heq := upsertOne_insert now hr' (Bool.eq_false_iff.mpr hht)
            rw [heq, hasVin_append, hnew, Bool.false_or] at hh'
            have hvin : r'.vin = r.vin := by
              simpa [hasVin] using hh'
            exact insert_case r' hvin heq
      · exact ih (upsertOne now t r') r hmem hne (Bool.eq_false_iff.mpr hh')

/-! ## Claim theorems -/

/-- C1:  Reconciliation never overwrites the user-editable override
fields: for every row already in the store, `upsert_vehicles` leaves
`price_override`, `addendum_override`, `market_value` and `notes` exactly as
they were (and `first_seen` too); the row's `price_dollars` becomes the
parsed price of the last batch record carrying its vin, and when
`price_override` is non-null the effective price is unchanged. -/
theorem upsert_preserves_overrides (now : Nat) (batch : List VehicleRecord)
    (store : List Vehicle) (i : Nat) (v : Vehicle) (h : store[i]? = some v) :
    ∃ v' : Vehicle, (upsert_vehicles now batch store)[i]? = some v' ∧
      v'.vin = v.vin ∧
      v'.price_override = v.price_override ∧
      v'.addendum_override = v.addendum_override ∧
      v'.market_value = v.market_value ∧
      v'.notes = v.notes ∧
      v'.first_seen = v.first_seen ∧
      (∀ r : VehicleRecord, lastOcc batch v.vin = some r →
        v'.price_dollars = parse_price r.price) ∧
      (v.price_override.isSome = true → effective_price v' = effective_price v) := by
  have hov : (fRow now batch (deactivate v)).price_override = v.price_override := by
    rw [fRow_price_override, deactivate_price_override]
  refine ⟨fRow now batch (deactivate v), upsert_vehicles_getElem? now batch h,
    ?_, hov, ?_, ?_, ?_, ?_, ?_, ?_⟩
  · rw [fRow_vin, deactivate_vin]
  · rw [fRow_addendum_override, deactivate_addendum_override]
  · rw [fRow_market_value, deactivate_market_value]
  · rw [fRow_notes, deactivate_notes]
  · rw [fRow_first_seen, deactivate_first_seen]
  · intro r hro
    rw [fRow_of_some (by rw [deactivate_vin]; exact hro), applyUpdate_price_dollars]
  · intro hs
    cases hpo : v.price_override with
    | none => rw [hpo] at hs; cases hs
    | some p => simp [effective_price, hov, hpo]

/-- Witness for C1: the store holds vin `A` with `price_override = 18000` and
scraped price 20000; a batch arrives with a scraped price of 19000; after the
pass `price_dollars` is 19000 while the override and the effective price stay
at 18000. -/
theorem upsert_preserves_overrides_witness :
    ∃ v' : Vehicle, (upsert_vehicles 200 [recA'] [rowA, rowB])[0]? = some v' ∧
      v'.price_override = some 18000 ∧
      effective_price v' = some 18000 ∧
      v'.price_dollars = some 19000 ∧
      v'.notes = "hold" := by
  obtain ⟨v', h1, -, h3, -, -, h6, -, hpd, heff⟩ :=
    upsert_preserves_overrides 200 [recA'] [rowA, rowB] 0 rowA rfl
  refine ⟨v', h1, ?_, ?_, ?_, ?_⟩
  · rw [h3]; rfl
  · rw [heff (by rfl)]; rfl
  · rw [hpd recA' (by decide)]; decide
  · rw [h6]; rfl

/-- C2:  After any `upsert_vehicles` call, a row is active exactly when
the batch contains a record with its (non-empty) vin; rows absent from the
batch are deactivated but keep their position in the store; an empty batch
deactivates everything. -/
theorem upsert_active_iff_in_batch (now : Nat) (batch : List VehicleRecord)
    (store : List Vehicle) :
    (∀ v' ∈ upsert_vehicles now batch store,
        (v'.is_active = true ↔ ∃ r ∈ batch, r.vin = v'.vin ∧ r.vin ≠ "")) ∧
    (∀ (i : Nat) (v : Vehicle), store[i]? = some v →
        ∃ v' : Vehicle, (upsert_vehicles now batch store)[i]? = some v' ∧
          v'.vin = v.vin) ∧
    (∀ v' ∈ upsert_vehicles now ([] : List VehicleRecord) store,
        v'.is_active = false) := by
  refine ⟨?_, ?_, ?_⟩
  · intro v' hv'
    have hbase : ∀ w ∈ store.map deactivate, (w.is_active = true ↔ False) := by
      intro w hw
      obtain ⟨u, -, rfl⟩ := List.mem_map.mp hw
      simp
    have := foldl_upsertOne_active now batch (fun _ => False) (store.map deactivate)
      hbase v' hv'
    rw [this]
    simp
  · intro i v h
    exact ⟨fRow now batch (deactivate v), upsert_vehicles_getElem? now batch h,
      by rw [fRow_vin, deactivate_vin]⟩
  · intro v' hv'
    have he : upsert_vehicles now ([] : List VehicleRecord) store =
        store.map deactivate := rfl
    rw [he] at hv'
    obtain ⟨u, -, rfl⟩ := List.mem_map.mp hv'
    simp

/-- Witness for C2: reconciling `[recA]` over a store holding vins `A` and
`B` leaves the row for `B` present at its position but inactive. -/
theorem upsert_active_iff_in_batch_witness :
    ∃ v' : Vehicle, (upsert_vehicles 200 [recA] [rowA, rowB])[1]? = some v' ∧
      v'.vin = "B" ∧ v'.is_active = false := by
  obtain ⟨hact, hpres, -⟩ := upsert_active_iff_in_batch 200 [recA] [rowA, rowB]
  obtain ⟨v', h1, h2⟩ := hpres 1 rowB rfl
  refine ⟨v', h1, h2, ?_⟩
  have hiff := hact v' (List.getElem?_mem h1)
  cases hb : v'.is_active
  · rfl
  · exfalso
    obtain ⟨r, hr, hvin, -⟩ := hiff.mp hb
    rw [List.mem_singleton] at hr
    subst hr
    rw [h2] at hvin
    exact absurd hvin (by decide)

/-- C3:  Reconciliation is idempotent: at a fixed current time, running
the same batch twice leaves exactly the state the first run produced. -/
theorem upsert_idempotent (now : Nat) (batch : List VehicleRecord)
    (store : List Vehicle) :
    upsert_vehicles now batch (upsert_vehicles now batch store) =
      upsert_vehicles now batch store := by
  set t₁ := upsert_vehicles now batch store with ht₁
  have hpres : ∀ r ∈ batch, r.vin ≠ "" → hasVin (t₁.map deactivate) r.vin = true := by
    intro r hr hne
    rw [hasVin_map deactivate_vin, ht₁]
    exact hasVin_foldl_batch now batch (store.map deactivate) r hr hne
  have hstep : upsert_vehicles now batch t₁ =
      List.foldl (upsertOne now) (t₁.map deactivate) batch := rfl
  rw [hstep, foldl_eq_map_of_present now batch (t₁.map deactivate) hpres,
    List.map_map]
  have hfix : ∀ v ∈ t₁, fRow now batch (deactivate v) = v := by
    intro v hv
    rw [ht₁] at hv
    rcases foldl_upsertOne_fixpoint now batch (store.map deactivate) v hv with
      ⟨r, hro, hfixv⟩ | ⟨hnone, hvt⟩
    · rw [fRow_of_some (by rw [deactivate_vin]; exact hro), applyUpdate_deactivate]
      exact hfixv
    · rw [fRow_of_none (by rw [deactivate_vin]; exact hnone)]
      obtain ⟨w, -, rfl⟩ := List.mem_map.mp hvt
      exact deactivate_eq_self rfl
  calc t₁.map (fun v => fRow now batch (deactivate v))
      = t₁.map id := List.map_congr_left hfix
    _ = t₁ := List.map_id t₁

/-- C4:  `first_seen` is write-once and `last_seen` tracks the latest
pass: a vehicle first inserted at time `T1` still has `first_seen = T1` after
a later pass at `T2` whose batch contains it, and its `last_seen` is `T2`. -/
theorem first_seen_write_once (T1 T2 : Nat) (batch1 batch2 : List VehicleRecord)
    (store : List Vehicle) (r : VehicleRecord)
    (hr : r ∈ batch1) (hne : r.vin ≠ "") (hnew : hasVin store r.vin = false)
    (hr2 : ∃ r2 ∈ batch2, r2.vin = r.vin) :
    ∃ (i : Nat) (v v' : Vehicle),
      (upsert_vehicles T1 batch1 store)[i]? = some v ∧ v.vin = r.vin ∧
      v.first_seen = T1 ∧ v.last_seen = T1 ∧
      (upsert_vehicles T2 batch2 (upsert_vehicles T1 batch1 store))[i]? = some v' ∧
      v'.vin = r.vin ∧ v'.first_seen = T1 ∧ v'.last_seen = T2 := by
  have hnew' : hasVin (store.map deactivate) r.vin = false := by
    rw [hasVin_map deactivate_vin]
    exact hnew
  obtain ⟨i, v, hiv, hvin, hfs, hls, -⟩ :=
    foldl_insert_row T1 batch1 (store.map deactivate) r hr hne hnew'
  obtain ⟨r2', hro⟩ := lastOcc_some_of hne batch2 hr2
  have hiv' : (upsert_vehicles T1 batch1 store)[i]? = some v := hiv
  have h2 := upsert_vehicles_getElem? T2 batch2 hiv'
  rw [fRow_of_some (by rw [deactivate_vin, hvin]; exact hro)] at h2
  refine ⟨i, v, applyUpdate T2 r2' (deactivate v), hiv', hvin, hfs, hls, h2,
    ?_, ?_, ?_⟩
  · rw [applyUpdate_vin, deactivate_vin, hvin]
  · rw [applyUpdate_first_seen, deactivate_first_seen, hfs]
  · rw [applyUpdate_last_seen]

/-- Witness for C4: vin `A` enters an empty store at time 100 and is seen
again at time 200; `first_seen` stays 100 while `last_seen` becomes 200. -/
theorem first_seen_write_once_witness :
    (recA ∈ ([recA] : List VehicleRecord)) ∧
    ∃ (i : Nat) (v v' : Vehicle),
      (upsert_vehicles 100 [recA] ([] : List Vehicle))[i]? = some v ∧
      v.vin = recA.vin ∧ v.first_seen = 100 ∧ v.last_seen = 100 ∧
      (upsert_vehicles 200 [recA']
        (upsert_vehicles 100 [recA] ([] : List Vehicle)))[i]? = some v' ∧
      v'.vin = recA.vin ∧ v'.first_seen = 100 ∧ v'.last_seen = 200 :=
  ⟨List.mem_singleton.mpr rfl,
    first_seen_write_once 100 200 [recA] [recA'] [] recA
      (List.mem_singleton.mpr rfl) (by decide) rfl
      ⟨recA', List.mem_singleton.mpr rfl, rfl⟩⟩

/-! ### Comparable-listings cache lemmas -/

theorem find?_set_comps (now : Nat) (key : String) (p : List String) :
    ∀ cache : List CompsEntry,
      (set_comps_cache now key p cache).find? (fun e => e.cache_key == key) =
        some { cache_key := key, data := p, fetched_at := now } := by
  intro cache
  induction cache with
  | nil => simp [set_comps_cache]
  | cons e cache ih =>
    by_cases he : e.cache_key = key
    · simp [set_comps_cache, List.any_cons, he]
    · by_cases ha : cache.any (fun e' => e'.cache_key == key)
      · have hset : set_comps_cache now key p cache =
            cache.map (fun e' =>
              if e'.cache_key = key then
                { cache_key := key, data := p, fetched_at := now } else e') := by
          simp [set_comps_cache, ha]
        have hcons : set_comps_cache now key p (e :: cache) =
            e :: cache.map (fun e' =>
              if e'.cache_key = key then
                { cache_key := key, data := p, fetched_at := now } else e') := by
          simp [set_comps_cache, List.any_cons, he, ha]
        rw [hcons, List.find?_cons_of_neg _ (by simp [he]), ← hset, ih]
      · have hset : set_comps_cache now key p cache =
            cache ++ [{ cache_key := key, data := p, fetched_at := now }] := by
          simp [set_comps_cache, ha]
        have hcons : set_comps_cache now key p (e :: cache) =
            e :: (cache ++ [{ cache_key := key, data := p, fetched_at := now }]) := by
          simp [set_comps_cache, List.any_cons, he, ha]
        rw [hcons, List.find?_cons_of_neg _ (by simp [he]), ← hset, ih]

/-- C5:  The comparable-listings cache obeys its 24-hour TTL: a stored
entry is returned while `now − fetched_at` is at most 24 hours and treated
as a miss afterwards (even though the row remains stored), an absent key is
a miss, and a `set` immediately followed by a `get` returns the payload. -/
theorem comps_cache_ttl (now : Nat) (key : String) (payload : List String)
    (cache : List CompsEntry) :
    get_comps_cache now key (set_comps_cache now key payload cache) = some payload ∧
    (∀ e : CompsEntry, cache.find? (fun e' => e'.cache_key == key) = some e →
      (now - e.fetched_at ≤ COMPS_TTL_SECONDS →
        get_comps_cache now key cache = some e.data) ∧
      (COMPS_TTL_SECONDS < now - e.fetched_at →
        get_comps_cache now key cache = none ∧ e ∈ cache)) ∧
    (cache.find? (fun e' => e'.cache_key == key) = none →
      get_comps_cache now key cache = none) := by
  refine ⟨?_, ?_, ?_⟩
  · unfold get_comps_cache
    rw [find?_set_comps now key payload cache]
    simp
  · intro e hfind
    constructor
    · intro hfresh
      have hc : ¬ (COMPS_TTL_SECONDS < now - e.fetched_at) := by omega
      simp [get_comps_cache, hfind, hc]
    · intro hstale
      refine ⟨?_, List.mem_of_find?_eq_some hfind⟩
      simp [get_comps_cache, hfind, hstale]
  · intro hfind
    simp [get_comps_cache, hfind]

/-- Witness for C5: at `now = 90000` a key stored at time 0 is expired
(86400 s TTL) and reads as a miss although its row is still in the cache,
while a fresh `set`/`get` round trip at the same instant returns the new
payload. -/
theorem comps_cache_ttl_witness :
    get_comps_cache 90000 "k"
      (set_comps_cache 90000 "k" ["new"] [⟨"k", ["old"], 0⟩]) = some ["new"] ∧
    get_comps_cache 90000 "k" [(⟨"k", ["old"], 0⟩ : CompsEntry)] = none ∧
    (⟨"k", ["old"], 0⟩ : CompsEntry) ∈ [(⟨"k", ["old"], 0⟩ : CompsEntry)] := by
  obtain ⟨h1, h2, -⟩ := comps_cache_ttl 90000 "k" ["new"] [⟨"k", ["old"], 0⟩]
  obtain ⟨-, h3⟩ := h2 ⟨"k", ["old"], 0⟩ (by decide)
  obtain ⟨h4, h5⟩ := h3 (by decide)
  exact ⟨h1, h4, h5⟩

/-! ### VIN-cache lemmas -/

theorem find?_set_vin (now : Nat) (vin : String) (sp : Option (List String))
    (st : Option String) :
    ∀ cache : List VinEntry,
      (set_vin_cache now vin sp st cache).find? (fun e => e.vin == vin) =
        some { vin := vin
               specs := sp.getD
                 (((cache.find? (fun e => e.vin == vin)).map VinEntry.specs).getD [])
               sticker_url := st.getD
                 (((cache.find? (fun e => e.vin == vin)).map
                    VinEntry.sticker_url).getD "")
               fetched_at := now } := by
  intro cache
  induction cache with
  | nil => simp [set_vin_cache]
  | cons e cache ih =>
    by_cases he : e.vin = vin
    · simp [set_vin_cache, List.any_cons, he]
    · by_cases ha : cache.any (fun e' => e'.vin == vin)
      · have hset : set_vin_cache now vin sp st cache =
            cache.map (fun e' =>
              if e'.vin = vin then
                { vin := vin, specs := sp.getD e'.specs
                  sticker_url := st.getD e'.sticker_url, fetched_at := now }
              else e') := by
          simp [set_vin_cache, ha]
        have hcons : set_vin_cache now vin sp st (e :: cache) =
            e :: cache.map (fun e' =>
              if e'.vin = vin then
                { vin := vin, specs := sp.getD e'.specs
                  sticker_url := st.getD e'.sticker_url, fetched_at := now }
              else e') := by
          simp [set_vin_cache, List.any_cons, he, ha]
        rw [hcons, List.find?_cons_of_neg _ (by simp [he]), ← hset, ih,
          List.find?_cons_of_neg _ (by simp [he])]
      · have hset : set_vin_cache now vin sp st cache =
            cache ++ [{ vin := vin, specs := sp.getD [], sticker_url := st.getD ""
                        fetched_at := now }] := by
          simp [set_vin_cache, ha]
        have hcons : set_vin_cache now vin sp st (e :: cache) =
            e :: (cache ++ [{ vin := vin, specs := sp.getD []
                              sticker_url := st.getD "", fetched_at := now }]) := by
          simp [set_vin_cache, List.any_cons, he, ha]
        rw [hcons, List.find?_cons_of_neg _ (by simp [he]), ← hset, ih,
          List.find?_cons_of_neg _ (by simp [he])]

/-- C8:  The VIN-cache upsert is per-field and non-destructive: setting
specs and then the sticker URL leaves both readable; each call updates only
the field it provides (keeping the other field's stored value), and a call
on an absent vin creates the row with empty defaults for unset fields. -/
theorem vin_cache_partial_upsert (now1 now2 : Nat) (vin : String) (S : List String)
    (U : String) (cache : List VinEntry) :
    get_vin_cache vin
        (set_vin_cache now2 vin none (some U)
          (set_vin_cache now1 vin (some S) none cache)) = some (S, U) ∧
    (∀ e : VinEntry, cache.find? (fun e' => e'.vin == vin) = some e →
      get_vin_cache vin (set_vin_cache now1 vin (some S) none cache) =
        some (S, e.sticker_url) ∧
      get_vin_cache vin (set_vin_cache now1 vin none (some U) cache) =
        some (e.specs, U)) ∧
    (cache.find? (fun e' => e'.vin == vin) = none →
      get_vin_cache vin (set_vin_cache now1 vin (some S) none cache) = some (S, "") ∧
      get_vin_cache vin (set_vin_cache now1 vin none (some U) cache) = some ([], U)) := by
  refine ⟨?_, ?_, ?_⟩
  · unfold get_vin_cache
    rw [find?_set_vin, find?_set_vin]
    simp
  · intro e hfind
    constructor <;>
      (unfold get_vin_cache; rw [find?_set_vin]; simp [hfind])
  · intro hfind
    constructor <;>
      (unfold get_vin_cache; rw [find?_set_vin]; simp [hfind])

/-- Witness for C8: on an empty cache, `set_vin(V, specs=["spec1"])` then
`set_vin(V, sticker_url="http://s")` leaves both values readable; the first
call alone creates the row with an empty default sticker URL. -/
theorem vin_cache_partial_upsert_witness :
    get_vin_cache "V"
        (set_vin_cache 2 "V" none (some "http://s")
          (set_vin_cache 1 "V" (some ["spec1"]) none ([] : List VinEntry))) =
      some (["spec1"], "http://s") ∧
    get_vin_cache "V"
        (set_vin_cache 1 "V" (some ["spec1"]) none ([] : List VinEntry)) =
      some (["spec1"], "") := by
  obtain ⟨h1, -, h3⟩ := vin_cache_partial_upsert 1 2 "V" ["spec1"] "http://s" []
  exact ⟨h1, (h3 rfl).1⟩

/-- C9:  Updating a vehicle that is not in the store is a reported no-op:
`update_vehicle_fields` returns `False` and leaves the store untouched (the
embedding is total, so no exception is possible). -/
theorem update_missing_vehicle_noop (vin : String) (fields : List (String × FieldVal))
    (store : List Vehicle) (h : ∀ v ∈ store, v.vin ≠ vin) :
    update_vehicle_fields vin fields store = (false, store) := by
  have h1 : hasVin store vin = false := hasVin_eq_false.mpr h
  have h2 : ∀ g : Vehicle → Vehicle,
      store.map (fun v => if v.vin = vin then g v else v) = store := by
    intro g
    calc store.map (fun v => if v.vin = vin then g v else v)
        = store.map id := List.map_congr_left (fun v hv => if_neg (h v hv))
      _ = store := List.map_id store
  unfold update_vehicle_fields
  by_cases hup : (fields.filter (fun kv => allowedFields.contains kv.1)).isEmpty
  · rw [if_pos hup]
  · rw [if_neg hup, h1, h2]

/-- Witness for C9: no row has vin `Z`, so a legitimate override update
reports `False` and changes nothing. -/
theorem update_missing_vehicle_noop_witness :
    update_vehicle_fields "Z" [("price_override", FieldVal.int (some 1))] [rowA] =
      (false, [rowA]) :=
  update_missing_vehicle_noop "Z" [("price_override", FieldVal.int (some 1))] [rowA]
    (by decide)

/-- C10:  When the `fields` dict carries no key from the allowed
user-editable set, `update_vehicle_fields` returns `False` and leaves the
store unchanged even if a row with the given vin exists — indistinguishable
from the not-found case by the return value. -/
theorem update_unknown_fields_noop (vin : String) (fields : List (String × FieldVal))
    (store : List Vehicle) (h : ∀ kv ∈ fields, kv.1 ∉ allowedFields) :
    update_vehicle_fields vin fields store = (false, store) := by
  have hfil : fields.filter (fun kv => allowedFields.contains kv.1) = [] := by
    rw [List.filter_eq_nil_iff]
    intro kv hkv hcon
    exact h kv hkv (by simpa using hcon)
  unfold update_vehicle_fields
  rw [hfil]
  rfl

/-- Witness for C10: the store does hold a row with vin `A`, yet an update
carrying only an unrecognized key reports `False` and changes nothing. -/
theorem update_unknown_fields_noop_witness :
    update_vehicle_fields "A" [("vin", FieldVal.str "HACK")] [rowA] =
      (false, [rowA]) ∧ hasVin [rowA] "A" = true :=
  ⟨update_unknown_fields_noop "A" [("vin", FieldVal.str "HACK")] [rowA] (by decide),
    by decide⟩

/-! ### Attempt-count read lemmas -/

theorem get_scrape_attempts_eq (vins : List String) (store : List Vehicle) :
    get_scrape_attempts vins store =
      (store.filter (fun v => vins.contains v.vin)).map
        (fun v => (v.vin, (v.price_scrape_attempts).getD 0)) := by
  by_cases h : vins.isEmpty
  · have hnil : store.filter (fun v => ([] : List String).contains v.vin) = [] :=
      List.filter_eq_nil_iff.mpr (fun v _ => by simp)
    rw [List.isEmpty_iff.mp h]
    simp [get_scrape_attempts, hnil]
  · simp [get_scrape_attempts, h]

theorem find?_vin_of_nodup :
    ∀ (l : List Vehicle) (v : Vehicle) (x : String), (l.map Vehicle.vin).Nodup →
      v ∈ l → v.vin = x → l.find? (fun w => w.vin == x) = some v := by
  intro l
  induction l with
  | nil => intro v x _ hv; cases hv
  | cons w l ih =>
    intro v x hnodup hv hvx
    rw [List.map_cons, List.nodup_cons] at hnodup
    rcases List.mem_cons.mp hv with rfl | hmem
    · exact List.find?_cons_of_pos _ (by simp [hvx])
    · have hwx : ¬ (w.vin = x) := by
        intro he
        apply hnodup.1
        have hm : v.vin ∈ l.map Vehicle.vin := List.mem_map_of_mem Vehicle.vin hmem
        rwa [hvx, ← he] at hm
      rw [List.find?_cons_of_neg _ (by simp [hwx])]
      exact ih v x hnodup.2 hmem hvx

/-- C7 as stated is false at a concrete input: with an empty store, the map
returned by `get_scrape_attempts ["A"]` has no entry for `"A"` at all — the
identifier is absent, not mapped to 0. -/
theorem get_scrape_attempts_missing_counterexample :
    lookupAttempt (get_scrape_attempts ["A"] ([] : List Vehicle)) "A" = none ∧
    lookupAttempt (get_scrape_attempts ["A"] ([] : List Vehicle)) "A" ≠ some 0 := by
  decide

/-- C7 amended:  `get_scrape_attempts(ids)` maps each requested
identifier that has a vehicle row to its stored counter with a NULL counter
read as 0; identifiers with no vehicle row (and identifiers not requested)
are absent from the returned map rather than mapped to 0. -/
theorem get_scrape_attempts_amended (vins : List String) (store : List Vehicle)
    (x : String) (hnodup : (store.map Vehicle.vin).Nodup) :
    (∀ v ∈ store, v.vin = x → x ∈ vins →
      lookupAttempt (get_scrape_attempts vins store) x =
        some ((v.price_scrape_attempts).getD 0)) ∧
    ((∀ v ∈ store, v.vin ≠ x) →
      lookupAttempt (get_scrape_attempts vins store) x = none) ∧
    (x ∉ vins → lookupAttempt (get_scrape_attempts vins store) x = none) := by
  have hlookup : lookupAttempt (get_scrape_attempts vins store) x =
      ((store.filter (fun v => vins.contains v.vin)).find?
        (fun w => w.vin == x)).map (fun w => (w.price_scrape_attempts).getD 0) := by
    unfold lookupAttempt
    rw [get_scrape_attempts_eq, List.find?_map, Option.map_map]
    rfl
  refine ⟨?_, ?_, ?_⟩
  · intro v hv hvx hxv
    have hsub : ((store.filter (fun v => vins.contains v.vin)).map Vehicle.vin).Nodup :=
      ((List.filter_sublist store).map Vehicle.vin).nodup hnodup
    have hmem : v ∈ store.filter (fun v => vins.contains v.vin) :=
      List.mem_filter.mpr ⟨hv, by simp [hvx, hxv]⟩
    rw [hlookup, find?_vin_of_nodup _ v x hsub hmem hvx, Option.map_some']
  · intro hnone
    rw [hlookup, List.find?_eq_none.mpr
      (fun w hw => by simpa using hnone w (List.mem_filter.mp hw).1)]
    rfl
  · intro hx
    rw [hlookup, List.find?_eq_none.mpr ?_]
    · rfl
    · intro w hw hbeq
      have hwx : w.vin = x := by simpa using hbeq
      apply hx
      have hcont := (List.mem_filter.mp hw).2
      rw [← hwx]
      simpa using hcont

/-- Witness for the amended C7: the requested vin `B` has a row with counter
2 and is mapped to 2; the requested vin `Z` has no row. -/
theorem get_scrape_attempts_amended_witness :
    lookupAttempt (get_scrape_attempts ["B", "Z"] [rowB]) "B" = some 2 :=
  (get_scrape_attempts_amended ["B", "Z"] [rowB] "B" (by decide)).1 rowB
    (by decide) rfl (by decide)

/-! ### Attempt-counter write lemmas -/

theorem applyAttemptUpdates_vin :
    ∀ (updates : List (String × Int)) (w : Vehicle),
      (applyAttemptUpdates updates w).vin = w.vin := by
  intro updates
  induction updates with
  | nil => intro w; rfl
  | cons u us ih =>
    intro w
    show (applyAttemptUpdates us
      (if w.vin = u.1 then { w with price_scrape_attempts := some (max 0 u.2) }
       else w)).vin = w.vin
    rw [ih]
    split <;> rfl

theorem update_scrape_attempts_eq_map :
    ∀ (updates : List (String × Int)) (s : List Vehicle),
      update_scrape_attempts updates s = s.map (applyAttemptUpdates updates) := by
  intro updates
  induction updates with
  | nil =>
    intro s
    exact (List.map_id'' (fun w => rfl) s).symm
  | cons u us ih =>
    intro s
    have h1 : update_scrape_attempts (u :: us) s =
        update_scrape_attempts us
          (s.map (fun w =>
            if w.vin = u.1 then { w with price_scrape_attempts := some (max 0 u.2) }
            else w)) := rfl
    rw [h1, ih, List.map_map]
    exact List.map_congr_left (fun w _ => rfl)

theorem applyAttemptUpdates_notin :
    ∀ (updates : List (String × Int)) (w : Vehicle),
      (∀ u ∈ updates, u.1 ≠ w.vin) → applyAttemptUpdates updates w = w := by
  intro updates
  induction updates with
  | nil => intro w _; rfl
  | cons u us ih =>
    intro w h
    show applyAttemptUpdates us
      (if w.vin = u.1 then { w with price_scrape_attempts := some (max 0 u.2) }
       else w) = w
    rw [if_neg (fun he => h u (List.mem_cons_self u us) he.symm)]
    exact ih w (fun u' hu' => h u' (List.mem_cons_of_mem u hu'))

theorem applyAttemptUpdates_mem :
    ∀ (updates : List (String × Int)) (w : Vehicle) (x : String) (c : Int),
      w.vin = x → (x, c) ∈ updates → (updates.map Prod.fst).Nodup →
      (applyAttemptUpdates updates w).price_scrape_attempts = some (max 0 c) := by
  intro updates
  induction updates with
  | nil => intro w x c _ hmem; cases hmem
  | cons u us ih =>
    intro w x c hwx hmem hnodup
    rw [List.map_cons, List.nodup_cons] at hnodup
    have hstep : applyAttemptUpdates (u :: us) w =
        applyAttemptUpdates us
          (if w.vin = u.1 then { w with price_scrape_attempts := some (max 0 u.2) }
           else w) := rfl
    rcases List.mem_cons.mp hmem with rfl | hmem'
    · rw [hstep, if_pos hwx]
      rw [applyAttemptUpdates_notin us _ (fun u' hu' he => by
        apply hnodup.1
        have h1 : u'.1 ∈ us.map Prod.fst := List.mem_map_of_mem Prod.fst hu'
        have h2 : u'.1 = x := by simpa [hwx] using he
        rwa [h2] at h1)]
    · have hne : u.1 ≠ x := by
        intro he
        apply hnodup.1
        have hx : (x, c).1 ∈ us.map Prod.fst := List.mem_map_of_mem Prod.fst hmem'
        rwa [← he] at hx
      rw [hstep, if_neg (fun he => hne (he.symm.trans hwx))]
      exact ih w x c hwx hmem' hnodup.2

/-- C6:  Retry-budget bookkeeping after a price-discovery run: an
attempted vehicle whose price resolved has its counter reset to 0; an
attempted vehicle without a price gets its counter incremented by exactly 1;
attempted vehicles always end with a non-negative stored counter; vehicles
skipped at the ceiling keep their counter untouched; and with the default
ceiling 3, three consecutive failures exhaust a vehicle (excluded from the
next run's attempts) while a subsequent success (counter written back to 0)
makes it eligible again. -/
theorem retry_budget_bookkeeping (now : Nat) (vehicles : List VehicleRecord)
    (store : List Vehicle) (v : VehicleRecord) (hv : v ∈ vehicles)
    (hnodupV : (vehicles.map VehicleRecord.vin).Nodup) :
    (v.vin ∉ skipVins store vehicles → hasPrice v = true →
      ∀ w ∈ runSync now vehicles store, w.vin = v.vin →
        w.price_scrape_attempts = some 0) ∧
    (∀ prev : Int, v.vin ∉ skipVins store vehicles → hasPrice v = false →
      0 ≤ prev →
      (lookupAttempt (get_scrape_attempts (vehicles.map (fun v => v.vin)) store)
          v.vin).getD 0 = prev →
      ∀ w ∈ runSync now vehicles store, w.vin = v.vin →
        w.price_scrape_attempts = some (prev + 1)) ∧
    (v.vin ∉ skipVins store vehicles →
      ∀ w ∈ runSync now vehicles store, w.vin = v.vin →
        ∃ c : Int, w.price_scrape_attempts = some c ∧ 0 ≤ c) ∧
    (v.vin ∈ skipVins store vehicles →
      ∀ (i : Nat) (w : Vehicle), store[i]? = some w → w.vin = v.vin →
        ∃ w' : Vehicle, (runSync now vehicles store)[i]? = some w' ∧
          w'.vin = v.vin ∧
          w'.price_scrape_attempts = w.price_scrape_attempts) ∧
    (storedAttempts threeFailStore "B" = some 3 ∧
      skipVins threeFailStore [recB] = ["B"] ∧
      attemptUpdates threeFailStore [recB] = [] ∧
      storedAttempts (update_scrape_attempts [("B", 0)] threeFailStore) "B" =
        some 0 ∧
      skipVins (update_scrape_attempts [("B", 0)] threeFailStore) [recB] = []) := by
  have hrun : runSync now vehicles store =
      (upsert_vehicles now vehicles store).map
        (applyAttemptUpdates (attemptUpdates store vehicles)) :=
    update_scrape_attempts_eq_map (attemptUpdates store vehicles)
      (upsert_vehicles now vehicles store)
  have hfstnodup : ((attemptUpdates store vehicles).map Prod.fst).Nodup := by
    unfold attemptUpdates
    rw [List.map_map]
    exact ((List.filter_sublist vehicles).map VehicleRecord.vin).nodup hnodupV
  have key : v.vin ∉ skipVins store vehicles →
      (v.vin,
        if hasPrice v then 0
        else (lookupAttempt (get_scrape_attempts (vehicles.map (fun v => v.vin))
            store) v.vin).getD 0 + 1) ∈ attemptUpdates store vehicles := by
    intro hskip
    unfold attemptUpdates
    exact List.mem_map_of_mem _ (List.mem_filter.mpr ⟨hv, by simpa using hskip⟩)
  refine ⟨?_, ?_, ?_, ?_, by decide⟩
  · intro hskip hprice w hw hwvin
    rw [hrun] at hw
    obtain ⟨w₀, hw₀, rfl⟩ := List.mem_map.mp hw
    have hw₀vin : w₀.vin = v.vin := by rwa [applyAttemptUpdates_vin] at hwvin
    have hmem0 := key hskip
    rw [if_pos hprice] at hmem0
    have := applyAttemptUpdates_mem (attemptUpdates store vehicles) w₀ v.vin 0
      hw₀vin hmem0 hfstnodup
    simpa using this
  · intro prev hskip hprice hprev heq w hw hwvin
    rw [hrun] at hw
    obtain ⟨w₀, hw₀, rfl⟩ := List.mem_map.mp hw
    have hw₀vin : w₀.vin = v.vin := by rwa [applyAttemptUpdates_vin] at hwvin
    have hmem1 : (v.vin, prev + 1) ∈ attemptUpdates store vehicles := by
      have hmem0 := key hskip
      rw [if_neg (by rw [hprice]; exact Bool.false_ne_true), heq] at hmem0
      exact hmem0
    have := applyAttemptUpdates_mem (attemptUpdates store vehicles) w₀ v.vin
      (prev + 1) hw₀vin hmem1 hfstnodup
    rwa [max_eq_right (by omega : (0 : Int) ≤ prev + 1)] at this
  · intro hskip w hw hwvin
    rw [hrun] at hw
    obtain ⟨w₀, hw₀, rfl⟩ := List.mem_map.mp hw
    have hw₀vin : w₀.vin = v.vin := by rwa [applyAttemptUpdates_vin] at hwvin
    exact ⟨_, applyAttemptUpdates_mem (attemptUpdates store vehicles) w₀ v.vin _
      hw₀vin (key hskip) hfstnodup, le_max_left 0 _⟩
  · intro hskip i w hiw hwvin
    have h1 := upsert_vehicles_getElem? now vehicles hiw
    have hnot : ∀ u ∈ attemptUpdates store vehicles,
        u.1 ≠ (fRow now vehicles (deactivate w)).vin := by
      intro u hu
      rw [fRow_vin, deactivate_vin, hwvin]
      unfold attemptUpdates at hu
      obtain ⟨v', hv', rfl⟩ := List.mem_map.mp hu
      intro he
      have hnc : v'.vin ∉ skipVins store vehicles := by
        simpa using (List.mem_filter.mp hv').2
      apply hnc
      have he' : v'.vin = v.vin := he
      rw [he']
      exact hskip
    have h2 : (runSync now vehicles store)[i]? =
        some (fRow now vehicles (deactivate w)) := by
      rw [hrun, List.getElem?_map, h1, Option.map_some',
        applyAttemptUpdates_notin _ _ hnot]
    exact ⟨fRow now vehicles (deactivate w), h2,
      by rw [fRow_vin, deactivate_vin, hwvin],
      by rw [fRow_attempts, deactivate_attempts]⟩

/-- Witness for C6: vin `A` (counter 0, not skipped) resolves a price, so
after the run its stored counter is 0. -/
theorem retry_budget_bookkeeping_witness :
    recA.vin ∉ skipVins [rowA] [recA] ∧
    (∀ w ∈ runSync 300 [recA] [rowA], w.vin = recA.vin →
      w.price_scrape_attempts = some 0) := by
  have h := (retry_budget_bookkeeping 300 [recA] [rowA] recA
    (List.mem_singleton.mpr rfl) (by decide)).1
  exact ⟨by decide, h (by decide) rfl⟩

end Grubbs
